import Mathlib

/-
  Verification of the go-rbac role-privilege cache and its read-through
  service (package rbac): the in-memory RolePrivilegesCache, the
  rbacService request path (GetRolePrivileges / HasPrivilege /
  HasAnyPrivilege / SetNewRolePrivileges / DeleteRolePrivileges), the
  periodic refresh loop body, and the context attachment helpers.

  Embedding conventions:
  - a Go map[string]bool value is an association list with String keys
    (PrivMap); indexing privileges[code] is PrivMap.getFlag, which yields
    false when the key is absent, as Go map indexing yields the zero value;
  - the cache table map[string]map[string]bool is an association list
    inside the RolePrivilegesCache structure; the sync.RWMutex only
    serialises access and carries no data, so it is not modelled;
  - the store (PrivilegeRepository.FetchPrivilegesByRoleID) is a function
    from roleID to Except String PrivMap; the Go (value, error) return
    convention becomes Except, with the error as a String;
  - stateful service methods take the cache in and return it out, and
    additionally return the number of store fetches the call performed,
    so that read-through claims about fetch counts are statable;
  - context.Context is a list of key/value pairs searched from the most
    recently attached value, as context.WithValue wraps outward.
-/

namespace GoRbac

/-- PrivMap models a Go map[string]bool: an association list from privilege
code to boolean flag. -/
abbrev PrivMap := List (String × Bool)

/-- Go map indexing m[k] for map[string]bool: the stored value when the key
is present, false (the zero value) when absent. -/
def PrivMap.getFlag (m : PrivMap) (k : String) : Bool :=
  (List.lookup k m).getD false

/-- Presence-aware lookup: some v when the key is present with value v,
none when the key is absent (comma-ok map access on the inner map). -/
def PrivMap.flag? (m : PrivMap) (k : String) : Option Bool :=
  List.lookup k m

/-- The keys of the inner map. -/
def PrivMap.keysOf (m : PrivMap) : List String :=
  m.map (fun kv => kv.1)

/-- Go map assignment m[k] = v on a map[string]bool: replaces any existing
entry for k wholesale. -/
def PrivMap.setKey (m : PrivMap) (k : String) (v : Bool) : PrivMap :=
  (k, v) :: m.filter (fun kv => kv.1 != k)

/-- RolePrivilegesCache from cache.go: the in-memory table roleID →
privilege map. The RWMutex field carries no data and is omitted. -/
structure RolePrivilegesCache where
  cache : List (String × PrivMap)
  deriving Repr, DecidableEq

/-- NewRolePrivilegesCache from cache.go: a cache with an empty table. -/
def NewRolePrivilegesCache : RolePrivilegesCache :=
  ⟨[]⟩

/-- Get from cache.go: comma-ok lookup of a roleID; (nil, false) when the
role has no entry, (privileges, true) when it does. -/
def RolePrivilegesCache.Get (c : RolePrivilegesCache) (roleID : String) :
    Option PrivMap × Bool :=
  match List.lookup roleID c.cache with
  | none => (none, false)
  | some privileges => (some privileges, true)

/-- Set from cache.go: c.cache[roleID] = privileges, inserting or replacing
the entry wholesale. -/
def RolePrivilegesCache.Set (c : RolePrivilegesCache) (roleID : String)
    (privileges : PrivMap) : RolePrivilegesCache :=
  ⟨(roleID, privileges) :: c.cache.filter (fun kv => kv.1 != roleID)⟩

/-- Delete from cache.go: delete(c.cache, roleID); removes the entry when
present, no-op otherwise. -/
def RolePrivilegesCache.Delete (c : RolePrivilegesCache) (roleID : String) :
    RolePrivilegesCache :=
  ⟨c.cache.filter (fun kv => kv.1 != roleID)⟩

/-- ClearCache from cache.go: replaces the table with a fresh empty map. -/
def RolePrivilegesCache.ClearCache (_ : RolePrivilegesCache) :
    RolePrivilegesCache :=
  ⟨[]⟩

/-- GetAllKeys from cache.go: the list of role IDs currently in the table. -/
def RolePrivilegesCache.GetAllKeys (c : RolePrivilegesCache) : List String :=
  c.cache.map (fun kv => kv.1)

/-- PrivilegeRepository.FetchPrivilegesByRoleID: the store collaborator,
keyed by roleID (the context argument carries no data used by the model). -/
abbrev PrivilegeRepository := String → Except String PrivMap

/-- loadRolePrivileges from the service: fetch from the store, and on
success cache the result via Set. Always performs exactly one store fetch
(the third component counts fetches). -/
def loadRolePrivileges (repo : PrivilegeRepository) (c : RolePrivilegesCache)
    (roleID : String) : Except String PrivMap × RolePrivilegesCache × Nat :=
  match repo roleID with
  | .error e => (.error e, c, 1)
  | .ok privileges => (.ok privileges, c.Set roleID privileges, 1)

/-- GetRolePrivileges from the service: cache hit returns the cached map
with no store fetch; cache miss delegates to loadRolePrivileges. Get never
returns (none, true), so the catch-all arm is exactly the exist=false
branch of the Go code. -/
def GetRolePrivileges (repo : PrivilegeRepository) (c : RolePrivilegesCache)
    (roleID : String) : Except String PrivMap × RolePrivilegesCache × Nat :=
  match c.Get roleID with
  | (some privileges, true) => (.ok privileges, c, 0)
  | _ => loadRolePrivileges repo c roleID

/-- HasPrivilege from the service: delegates to GetRolePrivileges and
indexes the resulting map (false, err) on error, (privileges[code], nil)
on success. -/
def HasPrivilege (repo : PrivilegeRepository) (c : RolePrivilegesCache)
    (roleID privilege : String) : Except String Bool × RolePrivilegesCache × Nat :=
  match GetRolePrivileges repo c roleID with
  | (.error e, c2, n) => (.error e, c2, n)
  | (.ok privileges, c2, n) => (.ok (PrivMap.getFlag privileges privilege), c2, n)

/-- The loop body of HasAnyPrivilege: walk the codes in order and return
true at the first code whose flag is true. -/
def hasAnyCode (privileges : PrivMap) : List String → Bool
  | [] => false
  | code :: rest =>
    if PrivMap.getFlag privileges code then true else hasAnyCode privileges rest

/-- HasAnyPrivilege from the service: delegates to GetRolePrivileges, then
scans the variadic codes, short-circuiting on the first match. -/
def HasAnyPrivilege (repo : PrivilegeRepository) (c : RolePrivilegesCache)
    (roleID : String) (privilegeCodes : List String) :
    Except String Bool × RolePrivilegesCache × Nat :=
  match GetRolePrivileges repo c roleID with
  | (.error e, c2, n) => (.error e, c2, n)
  | (.ok privileges, c2, n) => (.ok (hasAnyCode privileges privilegeCodes), c2, n)

/-- The map-building loop of SetNewRolePrivileges: for each listed code,
privilegesMap[code] = true. -/
def buildPrivilegesMap (privileges : List String) : PrivMap :=
  privileges.foldl (fun m privilege => PrivMap.setKey m privilege true) []

/-- SetNewRolePrivileges from the service: builds the map from the codes
and writes it straight into the cache. Returns nil error (none) and
performs zero store fetches. -/
def SetNewRolePrivileges (c : RolePrivilegesCache) (roleID : String)
    (privileges : List String) : Option String × RolePrivilegesCache × Nat :=
  (none, c.Set roleID (buildPrivilegesMap privileges), 0)

/-- DeleteRolePrivileges from the service: removes the role from the cache.
Returns nil error (none) and performs zero store fetches. -/
def DeleteRolePrivileges (c : RolePrivilegesCache) (roleID : String) :
    Option String × RolePrivilegesCache × Nat :=
  (none, c.Delete roleID, 0)

/-- The per-cycle body of startPeriodicRefresh: for each snapshotted
roleID, re-run loadRolePrivileges; a fetch error is logged (roleID paired
with the error message, accumulated in the second component) and the loop
continues with the remaining roles. The result type has no error: a
refresh cycle itself never fails. -/
def refreshRoles (repo : PrivilegeRepository) :
    RolePrivilegesCache → List String →
    RolePrivilegesCache × List (String × String)
  | c, [] => (c, [])
  | c, roleID :: rest =>
    match loadRolePrivileges repo c roleID with
    | (.error e, c2, _) =>
      let step := refreshRoles repo c2 rest
      (step.1, (roleID, e) :: step.2)
    | (.ok _, c2, _) => refreshRoles repo c2 rest

/-- One full refresh cycle: snapshot the keys, then refresh each. -/
def refreshCycle (repo : PrivilegeRepository) (c : RolePrivilegesCache) :
    RolePrivilegesCache × List (String × String) :=
  refreshRoles repo c c.GetAllKeys

/-- A value stored in a context: the string values (roleID, userID) or the
privileges map. Type assertion failure in the Go accessors corresponds to
a constructor mismatch. -/
inductive CtxValue where
  | str : String → CtxValue
  | privMap : PrivMap → CtxValue
  deriving Repr, DecidableEq

/-- context.Context as a chain of WithValue wrappers: lookup finds the most
recently attached value for a key first. -/
abbrev Ctx := List (String × CtxValue)

/-- Context key constants from context.go. -/
def RoleIDKey : String := "roleID"

/-- Context key for the privileges map. -/
def PrivilegesKey : String := "privileges"

/-- Context key for the user ID. -/
def UserIDKey : String := "userID"

/-- Context key for the user name. -/
def UserNameKey : String := "userName"

/-- context.WithValue: wraps the context with one more key/value pair. -/
def withValue (ctx : Ctx) (key : String) (v : CtxValue) : Ctx :=
  (key, v) :: ctx

/-- ctx.Value: innermost-first lookup of a key. -/
def ctxValue (ctx : Ctx) (key : String) : Option CtxValue :=
  List.lookup key ctx

/-- InjectContext from inject.go: attaches roleID, then userID, then the
privileges map. -/
def InjectContext (ctx : Ctx) (roleID userID : String) (privileges : PrivMap) :
    Ctx :=
  withValue (withValue (withValue ctx RoleIDKey (.str roleID))
    UserIDKey (.str userID)) PrivilegesKey (.privMap privileges)

/-- GetRoleIDFromContext from context.go: ctx.Value(RoleIDKey).(string)
with comma-ok; a failed assertion yields the zero string and false. -/
def GetRoleIDFromContext (ctx : Ctx) : String × Bool :=
  match ctxValue ctx RoleIDKey with
  | some (.str s) => (s, true)
  | _ => ("", false)

/-- GetUserIDFromContext from context.go. -/
def GetUserIDFromContext (ctx : Ctx) : String × Bool :=
  match ctxValue ctx UserIDKey with
  | some (.str s) => (s, true)
  | _ => ("", false)

/-- GetPrivilegesFromContext from context.go:
ctx.Value(PrivilegesKey).(map[string]bool) with comma-ok; a failed
assertion yields the nil map (none) and false. -/
def GetPrivilegesFromContext (ctx : Ctx) : Option PrivMap × Bool :=
  match ctxValue ctx PrivilegesKey with
  | some (.privMap m) => (some m, true)
  | _ => (none, false)

/-- HasPrivilegeInContext from context.go: false when the privileges map is
absent, otherwise the map indexed at the code. -/
def HasPrivilegeInContext (ctx : Ctx) (privilegeCode : String) : Bool :=
  match GetPrivilegesFromContext ctx with
  | (some privileges, true) => PrivMap.getFlag privileges privilegeCode
  | _ => false

/-
  Concrete fixtures used to evaluate the theorems on closed inputs,
  mirroring the end-to-end scenario of the spec (role admin holding
  read:compliance).
-/

/-- The admin role ID of the end-to-end scenario. -/
def roleAdmin : String := "admin"

/-- The guest role ID of the end-to-end scenario. -/
def roleGuest : String := "guest"

/-- The read:compliance privilege code of the end-to-end scenario. -/
def privCompliance : String := "read:compliance"

/-- The privilege map holding exactly read:compliance. -/
def privW : PrivMap := [(privCompliance, true)]

/-- A store that answers every role with the read:compliance map. -/
def repoW : PrivilegeRepository := fun _ => .ok privW

/-- A fixed store error message. -/
def msgW : String := "store unavailable"

/-- A store whose every fetch fails. -/
def repoFailW : PrivilegeRepository := fun _ => .error msgW

/-- A cache already holding the admin role's map. -/
def cacheW : RolePrivilegesCache := ⟨[(roleAdmin, privW)]⟩

/-- An inner map whose only entry maps read:compliance to false. -/
def privDenied : PrivMap := [(privCompliance, false)]

/-- A cache whose guest entry carries a false-valued privilege key. -/
def cacheDeniedW : RolePrivilegesCache := ⟨[(roleGuest, privDenied)]⟩

/-
  Association-list facts shared by the cache table and the inner maps.
-/

/-- Lookup of one key ignores filtering away another key. -/
theorem lookup_filter_ne {β : Type} (l : List (String × β)) (r k : String)
    (h : r ≠ k) :
    List.lookup r (l.filter (fun kv => kv.1 != k)) = List.lookup r l := by
  induction l with
  | nil => rfl
  | cons hd tl ih =>
    obtain ⟨a, b⟩ := hd
    rcases eq_or_ne a k with hak | hak
    · subst hak
      have hra : (r == a) = false := beq_eq_false_iff_ne.mpr h
      simp [List.filter_cons, List.lookup, hra, ih]
    · have hk : (a != k) = true := bne_iff_ne.mpr hak
      simp only [List.filter_cons, hk, if_true]
      cases hr : r == a with
      | true => simp [List.lookup, hr]
      | false => simp [List.lookup, hr, ih]

/-- Filtering a key away makes its lookup fail. -/
theorem lookup_filter_self {β : Type} (l : List (String × β)) (k : String) :
    List.lookup k (l.filter (fun kv => kv.1 != k)) = none := by
  induction l with
  | nil => rfl
  | cons hd tl ih =>
    obtain ⟨a, b⟩ := hd
    rcases eq_or_ne a k with hak | hak
    · subst hak
      simp [List.filter_cons, ih]
    · have hk : (a != k) = true := bne_iff_ne.mpr hak
      have hka : (k == a) = false := beq_eq_false_iff_ne.mpr (Ne.symm hak)
      simp [List.filter_cons, hk, List.lookup, hka, ih]

/-- Filtering away an absent key is the identity. -/
theorem filter_eq_self_of_lookup_none {β : Type} (l : List (String × β))
    (k : String) (h : List.lookup k l = none) :
    l.filter (fun kv => kv.1 != k) = l := by
  induction l with
  | nil => rfl
  | cons hd tl ih =>
    obtain ⟨a, b⟩ := hd
    cases hka : k == a with
    | true =>
      exfalso
      simp [List.lookup, hka] at h
    | false =>
      have hak : (a != k) = true := by
        refine bne_iff_ne.mpr ?_
        intro hcon
        subst hcon
        simp at hka
      have htl : List.lookup k tl = none := by
        simpa [List.lookup, hka] using h
      simp [List.filter_cons, hak, ih htl]

/-- A key is among the mapped-out firsts iff its lookup succeeds. -/
theorem mem_keys_iff_lookup_isSome {β : Type} (l : List (String × β))
    (r : String) :
    r ∈ l.map (fun kv => kv.1) ↔ (List.lookup r l).isSome = true := by
  induction l with
  | nil => simp [List.lookup]
  | cons hd tl ih =>
    obtain ⟨a, b⟩ := hd
    cases hra : r == a with
    | true =>
      have : r = a := eq_of_beq hra
      subst this
      simp [List.lookup, hra]
    | false =>
      have hne : ¬ r = a := by
        intro hcon
        subst hcon
        simp at hra
      simp [List.lookup, hra, hne, ih]

/-- Mapping out firsts commutes with filtering on the first component. -/
theorem map_fst_filter {β : Type} (l : List (String × β)) (p : String → Bool) :
    (l.filter (fun kv => p kv.1)).map (fun kv => kv.1) =
      (l.map (fun kv => kv.1)).filter p := by
  induction l with
  | nil => rfl
  | cons hd tl ih =>
    obtain ⟨a, b⟩ := hd
    cases hp : p a with
    | true => simp [List.filter_cons, hp, ih]
    | false => simp [List.filter_cons, hp, ih]

/-
  Cache-level consequences.
-/

/-- Set makes the written entry retrievable. -/
theorem RolePrivilegesCache.get_set_self (c : RolePrivilegesCache)
    (r : String) (p : PrivMap) : (c.Set r p).Get r = (some p, true) := by
  simp [RolePrivilegesCache.Get, RolePrivilegesCache.Set, List.lookup]

/-- Set leaves other roles' entries alone. -/
theorem RolePrivilegesCache.get_set_ne (c : RolePrivilegesCache)
    (r r2 : String) (p : PrivMap) (h : r2 ≠ r) :
    (c.Set r p).Get r2 = c.Get r2 := by
  have hb : (r2 == r) = false := beq_eq_false_iff_ne.mpr h
  simp [RolePrivilegesCache.Get, RolePrivilegesCache.Set, List.lookup, hb,
    lookup_filter_ne c.cache r2 r h]

/-- Delete makes the role's entry unretrievable. -/
theorem RolePrivilegesCache.get_delete_self (c : RolePrivilegesCache)
    (r : String) : (c.Delete r).Get r = (none, false) := by
  simp [RolePrivilegesCache.Get, RolePrivilegesCache.Delete,
    lookup_filter_self c.cache r]

/-- A not-found Get is exactly the (none, false) result. -/
theorem RolePrivilegesCache.get_eq_of_not_found (c : RolePrivilegesCache)
    (r : String) (h : (c.Get r).2 = false) : c.Get r = (none, false) := by
  unfold RolePrivilegesCache.Get at h ⊢
  cases hq : List.lookup r c.cache with
  | none => rfl
  | some p => simp [hq] at h

/-- Delete of an absent role is the identity on the cache. -/
theorem RolePrivilegesCache.delete_absent (c : RolePrivilegesCache)
    (r : String) (h : (c.Get r).2 = false) : c.Delete r = c := by
  have hnone : List.lookup r c.cache = none := by
    have := c.get_eq_of_not_found r h
    unfold RolePrivilegesCache.Get at this
    cases hq : List.lookup r c.cache with
    | none => rfl
    | some p => simp [hq] at this
  unfold RolePrivilegesCache.Delete
  cases c with
  | mk l => simp [filter_eq_self_of_lookup_none l r hnone]

/-
  Service-level helpers.
-/

/-- On a cache hit GetRolePrivileges answers from the cache with no fetch. -/
theorem getRolePrivileges_hit (repo : PrivilegeRepository)
    (c : RolePrivilegesCache) (r : String) (p : PrivMap)
    (h : c.Get r = (some p, true)) :
    GetRolePrivileges repo c r = (.ok p, c, 0) := by
  unfold GetRolePrivileges
  rw [h]

/-- On a cache miss GetRolePrivileges is exactly loadRolePrivileges. -/
theorem getRolePrivileges_miss (repo : PrivilegeRepository)
    (c : RolePrivilegesCache) (r : String) (h : (c.Get r).2 = false) :
    GetRolePrivileges repo c r = loadRolePrivileges repo c r := by
  unfold GetRolePrivileges
  rw [c.get_eq_of_not_found r h]

/-- The scan of HasAnyPrivilege agrees with List.any over the codes. -/
theorem hasAnyCode_eq_any (p : PrivMap) (codes : List String) :
    hasAnyCode p codes = codes.any (fun code => PrivMap.getFlag p code) := by
  induction codes with
  | nil => rfl
  | cons code rest ih =>
    unfold hasAnyCode
    cases hc : PrivMap.getFlag p code with
    | true => simp [hc]
    | false => simp [hc, ih]

/-- Indexing after a map assignment: the assigned key reads the new value,
others are unchanged. -/
theorem getFlag_setKey (m : PrivMap) (k k2 : String) (v : Bool) :
    PrivMap.getFlag (PrivMap.setKey m k v) k2 =
      if k2 = k then v else PrivMap.getFlag m k2 := by
  rcases eq_or_ne k2 k with hk | hk
  · subst hk
    simp [PrivMap.getFlag, PrivMap.setKey, List.lookup]
  · have hb : (k2 == k) = false := beq_eq_false_iff_ne.mpr hk
    simp [PrivMap.getFlag, PrivMap.setKey, List.lookup, hb, hk,
      lookup_filter_ne m k2 k hk]

/-- The assignment loop of SetNewRolePrivileges computes membership of the
code list, over any starting map. -/
theorem getFlag_foldl_setKey (codes : List String) (m : PrivMap)
    (code : String) :
    PrivMap.getFlag (codes.foldl (fun acc x => PrivMap.setKey acc x true) m)
      code = (codes.contains code || PrivMap.getFlag m code) := by
  induction codes generalizing m with
  | nil => simp
  | cons c0 rest ih =>
    rw [List.foldl_cons, ih, getFlag_setKey]
    rcases eq_or_ne code c0 with hc | hc
    · subst hc
      simp
    · have hb : (code == c0) = false := beq_eq_false_iff_ne.mpr hc
      simp [hc, hb, List.contains_cons]

/-- A map assignment keeps the keys duplicate-free. -/
theorem nodup_keysOf_setKey (m : PrivMap) (k : String) (v : Bool)
    (h : (PrivMap.keysOf m).Nodup) :
    (PrivMap.keysOf (PrivMap.setKey m k v)).Nodup := by
  unfold PrivMap.setKey PrivMap.keysOf
  rw [List.map_cons, List.nodup_cons]
  constructor
  · intro hmem
    rw [map_fst_filter m (fun x => x != k)] at hmem
    rcases List.mem_filter.mp hmem with ⟨_, hne⟩
    exact (bne_iff_ne.mp hne) rfl
  · rw [map_fst_filter m (fun x => x != k)]
    exact List.Nodup.filter _ h

/-- The built privileges map has duplicate-free keys from any
duplicate-free start. -/
theorem nodup_keysOf_foldl_setKey (codes : List String) (m : PrivMap)
    (h : (PrivMap.keysOf m).Nodup) :
    (PrivMap.keysOf
      (codes.foldl (fun acc x => PrivMap.setKey acc x true) m)).Nodup := by
  induction codes generalizing m with
  | nil => exact h
  | cons c0 rest ih =>
    rw [List.foldl_cons]
    exact ih _ (nodup_keysOf_setKey m c0 true h)

/-- A refresh cycle whose last role fetch succeeds leaves that role's entry
at the fetched value, whatever happened to earlier roles. -/
theorem refresh_append_ok (repo : PrivilegeRepository) (r : String)
    (p : PrivMap) (hrep : repo r = .ok p) (rs : List String)
    (c : RolePrivilegesCache) :
    ((refreshRoles repo c (rs ++ [r])).1).Get r = (some p, true) := by
  induction rs generalizing c with
  | nil =>
    simp only [List.nil_append, refreshRoles, loadRolePrivileges, hrep]
    exact c.get_set_self r p
  | cons r0 rest ih =>
    rw [List.cons_append]
    unfold refreshRoles loadRolePrivileges
    cases hq : repo r0 with
    | error e => exact ih c
    | ok p0 => exact ih (c.Set r0 p0)

/-
  Claim theorems.
-/

/-- C4: for every roleID r and every privilege set p, cache Set(r, p)
followed by Get(r) returns (p, true). -/
theorem cache_set_then_get (c : RolePrivilegesCache) (r : String)
    (p : PrivMap) : (c.Set r p).Get r = (some p, true) :=
  c.get_set_self r p

/-- C5: in every cache state, GetAllKeys returns exactly the set of roleIDs
with a present entry (membership in the returned list coincides with the
found flag of Get), and after ClearCache it returns an empty set regardless
of prior contents. -/
theorem getAllKeys_exact (c : RolePrivilegesCache) (r : String) :
    (r ∈ c.GetAllKeys ↔ (c.Get r).2 = true) ∧
    (c.ClearCache).GetAllKeys = [] := by
  constructor
  · have h := mem_keys_iff_lookup_isSome c.cache r
    unfold RolePrivilegesCache.GetAllKeys RolePrivilegesCache.Get
    cases hq : List.lookup r c.cache with
    | none => simp only [hq] at h; simpa using h
    | some p => simp only [hq] at h; simpa using h
  · rfl

/-- Witness for C5 at a concrete cache and role. -/
theorem getAllKeys_exact_witness :
    roleAdmin ∈ cacheW.GetAllKeys ∧ (cacheW.ClearCache).GetAllKeys = [] := by
  refine ⟨(getAllKeys_exact cacheW roleAdmin).1.mpr (by decide),
    (getAllKeys_exact cacheW roleAdmin).2⟩

/-- C8: Get on a roleID never written (any sequence of Sets to other roles
starting from a fresh cache), or deleted since its last write, returns
(absent, false); Delete followed by Get is not-found; Delete on an absent
role is a no-op that leaves the cache unchanged (and, being total, cannot
error). -/
theorem get_absent_and_delete_noop (c : RolePrivilegesCache) (r : String) :
    (∀ writes : List (String × PrivMap), (∀ w ∈ writes, w.1 ≠ r) →
      ((writes.foldl (fun acc w => acc.Set w.1 w.2)
        NewRolePrivilegesCache).Get r) = (none, false)) ∧
    (c.Delete r).Get r = (none, false) ∧
    ((c.Get r).2 = false → c.Delete r = c) := by
  refine ⟨?_, c.get_delete_self r, c.delete_absent r⟩
  have main : ∀ (writes : List (String × PrivMap)) (c0 : RolePrivilegesCache),
      c0.Get r = (none, false) → (∀ w ∈ writes, w.1 ≠ r) →
      ((writes.foldl (fun acc w => acc.Set w.1 w.2) c0).Get r) =
        (none, false) := by
    intro writes
    induction writes with
    | nil => intro c0 h0 _; exact h0
    | cons w rest ih =>
      intro c0 h0 hw
      rw [List.foldl_cons]
      refine ih (c0.Set w.1 w.2) ?_ (fun x hx => hw x (List.mem_cons_of_mem w hx))
      rw [RolePrivilegesCache.get_set_ne c0 w.1 r w.2
        (Ne.symm (hw w (List.mem_cons_self w rest)))]
      exact h0
  intro writes hw
  exact main writes NewRolePrivilegesCache rfl hw

/-- Witness for C8: one write to another role, then Get and an absent
Delete at a concrete role. -/
theorem get_absent_and_delete_noop_witness :
    (([((roleAdmin : String), privW)].foldl (fun acc w => acc.Set w.1 w.2)
      NewRolePrivilegesCache).Get roleGuest) = (none, false) ∧
    cacheW.Delete roleGuest = cacheW := by
  refine ⟨(get_absent_and_delete_noop cacheW roleGuest).1
      [(roleAdmin, privW)] (by decide),
    (get_absent_and_delete_noop cacheW roleGuest).2.2 (by decide)⟩

/-- C1: GetRolePrivileges is read-through: a present cache entry is
returned with zero store fetches; an absent entry triggers exactly one
store fetch whose successful result is written to the cache via Set and
returned, after which a second GetRolePrivileges or a HasPrivilege call for
the same roleID answers from the cache with zero further fetches. -/
theorem getRolePrivileges_read_through (repo : PrivilegeRepository)
    (c : RolePrivilegesCache) (r : String) (p : PrivMap) :
    (c.Get r = (some p, true) → GetRolePrivileges repo c r = (.ok p, c, 0)) ∧
    (c.Get r = (none, false) → repo r = .ok p →
      GetRolePrivileges repo c r = (.ok p, c.Set r p, 1) ∧
      GetRolePrivileges repo (c.Set r p) r = (.ok p, c.Set r p, 0) ∧
      ∀ code, HasPrivilege repo (c.Set r p) r code =
        (.ok (PrivMap.getFlag p code), c.Set r p, 0)) := by
  constructor
  · exact fun h => getRolePrivileges_hit repo c r p h
  · intro hmiss hrepo
    have h1 : GetRolePrivileges repo c r = (.ok p, c.Set r p, 1) := by
      rw [getRolePrivileges_miss repo c r (by rw [hmiss])]
      unfold loadRolePrivileges
      rw [hrepo]
    have h2 : GetRolePrivileges repo (c.Set r p) r = (.ok p, c.Set r p, 0) :=
      getRolePrivileges_hit repo (c.Set r p) r p (c.get_set_self r p)
    refine ⟨h1, h2, fun code => ?_⟩
    unfold HasPrivilege
    rw [h2]

/-- Witness for C1: a fresh cache, the admin role, the scenario store; one
fetch on the first call, zero on the second. -/
theorem getRolePrivileges_read_through_witness :
    GetRolePrivileges repoW NewRolePrivilegesCache roleAdmin =
      (.ok privW, NewRolePrivilegesCache.Set roleAdmin privW, 1) ∧
    GetRolePrivileges repoW (NewRolePrivilegesCache.Set roleAdmin privW)
      roleAdmin = (.ok privW, NewRolePrivilegesCache.Set roleAdmin privW, 0) := by
  have h := (getRolePrivileges_read_through repoW NewRolePrivilegesCache
    roleAdmin privW).2 rfl rfl
  exact ⟨h.1, h.2.1⟩

/-- C2: on a cache miss whose store fetch fails, GetRolePrivileges (and the
delegating HasPrivilege and HasAnyPrivilege) returns the store's error with
the cache unmodified for that role (no entry created), so a subsequent call
performs a store fetch again. -/
theorem miss_fetch_failure_propagates (repo : PrivilegeRepository)
    (c : RolePrivilegesCache) (r e : String)
    (hmiss : c.Get r = (none, false)) (hrepo : repo r = .error e) :
    GetRolePrivileges repo c r = (.error e, c, 1) ∧
    (∀ code, HasPrivilege repo c r code = (.error e, c, 1)) ∧
    (∀ codes, HasAnyPrivilege repo c r codes = (.error e, c, 1)) ∧
    (GetRolePrivileges repo ((GetRolePrivileges repo c r).2.1) r).2.2 = 1 := by
  have h1 : GetRolePrivileges repo c r = (.error e, c, 1) := by
    rw [getRolePrivileges_miss repo c r (by rw [hmiss])]
    unfold loadRolePrivileges
    rw [hrepo]
  refine ⟨h1, fun code => ?_, fun codes => ?_, ?_⟩
  · unfold HasPrivilege
    rw [h1]
  · unfold HasAnyPrivilege
    rw [h1]
  · simp [h1]

/-- Witness for C2: a fresh cache and the always-failing store. -/
theorem miss_fetch_failure_propagates_witness :
    GetRolePrivileges repoFailW NewRolePrivilegesCache roleAdmin =
      (.error msgW, NewRolePrivilegesCache, 1) :=
  (miss_fetch_failure_propagates repoFailW NewRolePrivilegesCache roleAdmin
    msgW rfl rfl).1

/-- C3: whenever the role's privilege set is obtainable (GetRolePrivileges
succeeds), HasAnyPrivilege returns true iff the set contains at least one
of the given codes, yields false for an empty code list, and its scan
short-circuits at the first matching code (the remaining codes are
irrelevant). -/
theorem hasAnyPrivilege_spec (repo : PrivilegeRepository)
    (c c2 : RolePrivilegesCache) (r : String) (p : PrivMap) (n : Nat)
    (hget : GetRolePrivileges repo c r = (.ok p, c2, n)) :
    (∀ codes, HasAnyPrivilege repo c r codes =
        (.ok (codes.any (fun code => PrivMap.getFlag p code)), c2, n)) ∧
    (∀ codes, (HasAnyPrivilege repo c r codes).1 = .ok true ↔
        ∃ code ∈ codes, PrivMap.getFlag p code = true) ∧
    HasAnyPrivilege repo c r [] = (.ok false, c2, n) ∧
    (∀ code rest, PrivMap.getFlag p code = true →
        hasAnyCode p (code :: rest) = true) := by
  have h0 : ∀ codes, HasAnyPrivilege repo c r codes =
      (.ok (codes.any (fun code => PrivMap.getFlag p code)), c2, n) := by
    intro codes
    unfold HasAnyPrivilege
    rw [hget]
    simp only [hasAnyCode_eq_any]
  refine ⟨h0, fun codes => ?_, ?_, fun code rest h => ?_⟩
  · rw [h0 codes]
    simp [List.any_eq_true]
  · rw [h0 []]
    simp
  · unfold hasAnyCode
    rw [h]
    simp

/-- Witness for C3: the admin role against the populated scenario cache;
the empty code list yields false. -/
theorem hasAnyPrivilege_spec_witness :
    HasAnyPrivilege repoW cacheW roleAdmin [] = (.ok false, cacheW, 0) :=
  (hasAnyPrivilege_spec repoW cacheW cacheW roleAdmin privW 0 rfl).2.2.1

/-- C6: within a refresh cycle each snapshotted key is re-fetched
independently: a failed fetch for one role is logged (role id and error)
and the remaining roles of the cycle are still refreshed, from an unchanged
cache (the result carries no error, so no failure is ever surfaced or
fatal); a successful fetch enters the cycle with that role's entry updated
via Set, and a role fetched successfully at the end of a cycle ends the
cycle with its entry at the fetched value whatever happened before it. -/
theorem refresh_failure_isolated (repo : PrivilegeRepository)
    (c : RolePrivilegesCache) (r : String) :
    (∀ e rs, repo r = .error e →
        refreshRoles repo c (r :: rs) =
          ((refreshRoles repo c rs).1, (r, e) :: (refreshRoles repo c rs).2)) ∧
    (∀ p rs, repo r = .ok p →
        refreshRoles repo c (r :: rs) = refreshRoles repo (c.Set r p) rs) ∧
    (∀ p rs, repo r = .ok p →
        ((refreshRoles repo c (rs ++ [r])).1).Get r = (some p, true)) := by
  refine ⟨fun e rs h => ?_, fun p rs h => ?_, fun p rs h => ?_⟩
  · simp only [refreshRoles, loadRolePrivileges, h]
  · simp only [refreshRoles, loadRolePrivileges, h]
  · exact refresh_append_ok repo r p h rs c

/-- Witness for C6: a one-role cycle against the failing store leaves the
populated cache intact and logs that role. -/
theorem refresh_failure_isolated_witness :
    refreshRoles repoFailW cacheW (roleAdmin :: []) =
      ((refreshRoles repoFailW cacheW []).1,
        (roleAdmin, msgW) :: (refreshRoles repoFailW cacheW []).2) :=
  (refresh_failure_isolated repoFailW cacheW roleAdmin).1 msgW [] rfl

/-- C7: SetNewRolePrivileges builds a privilege map from the given codes
with duplicates collapsed (its membership is exactly list membership of the
codes and its keys are duplicate-free) and writes it into the cache with a
nil error and zero store fetches; DeleteRolePrivileges likewise only
touches the cache, with a nil error and zero store fetches. -/
theorem setNew_delete_cache_only (c : RolePrivilegesCache) (r : String)
    (codes : List String) :
    SetNewRolePrivileges c r codes =
      (none, c.Set r (buildPrivilegesMap codes), 0) ∧
    (∀ code, PrivMap.getFlag (buildPrivilegesMap codes) code =
        codes.contains code) ∧
    (PrivMap.keysOf (buildPrivilegesMap codes)).Nodup ∧
    DeleteRolePrivileges c r = (none, c.Delete r, 0) := by
  refine ⟨rfl, fun code => ?_, ?_, rfl⟩
  · unfold buildPrivilegesMap
    rw [getFlag_foldl_setKey]
    simp [PrivMap.getFlag, List.lookup]
  · exact nodup_keysOf_foldl_setKey codes [] (by simp [PrivMap.keysOf])

/-- C9: the three values attached by InjectContext are retrieved unchanged
(each with found = true) by the corresponding accessors, and
HasPrivilegeInContext is exactly membership in the attached privilege
map. -/
theorem inject_retrieve_roundtrip (ctx : Ctx) (roleID userID : String)
    (privileges : PrivMap) :
    GetRoleIDFromContext (InjectContext ctx roleID userID privileges) =
      (roleID, true) ∧
    GetUserIDFromContext (InjectContext ctx roleID userID privileges) =
      (userID, true) ∧
    GetPrivilegesFromContext (InjectContext ctx roleID userID privileges) =
      (some privileges, true) ∧
    (∀ code, HasPrivilegeInContext (InjectContext ctx roleID userID privileges)
        code = PrivMap.getFlag privileges code) := by
  refine ⟨rfl, rfl, rfl, fun code => rfl⟩

/-- C10: membership is decided by the stored boolean, not key presence:
for a cached role whose map carries a privilege code with value false,
HasPrivilege answers (false, nil) for that code and HasAnyPrivilege treats
the code as absent (dropping it from the scan), even though Get reports the
entry present and the code is among the returned map's keys. -/
theorem false_flag_not_membership (repo : PrivilegeRepository)
    (c : RolePrivilegesCache) (r code : String) (p : PrivMap)
    (hget : c.Get r = (some p, true))
    (hflag : PrivMap.flag? p code = some false) :
    HasPrivilege repo c r code = (.ok false, c, 0) ∧
    (∀ rest, HasAnyPrivilege repo c r (code :: rest) =
        HasAnyPrivilege repo c r rest) ∧
    code ∈ PrivMap.keysOf p := by
  have hl : List.lookup code p = some false := hflag
  have hg : PrivMap.getFlag p code = false := by
    unfold PrivMap.getFlag
    rw [hl]
    rfl
  have h1 := getRolePrivileges_hit repo c r p hget
  refine ⟨?_, fun rest => ?_, ?_⟩
  · unfold HasPrivilege
    rw [h1]
    simp only [hg]
  · unfold HasAnyPrivilege
    rw [h1]
    simp only [hasAnyCode, hg]
    simp
  · refine (mem_keys_iff_lookup_isSome p code).mpr ?_
    rw [hl]
    rfl

/-- Witness for C10: the guest role whose read:compliance flag is stored
as false. -/
theorem false_flag_not_membership_witness :
    HasPrivilege repoW cacheDeniedW roleGuest privCompliance =
      (.ok false, cacheDeniedW, 0) :=
  (false_flag_not_membership repoW cacheDeniedW roleGuest privCompliance
    privDenied rfl rfl).1

end GoRbac
